import Mathlib

/-!
Verification development for the relation-extraction core of
`whodidwhat/svo_extraction.py` (the Who-did-What network builder).

The Python code walks a spaCy dependency parse.  We shallowly embed the
parsed document as an arena of tokens addressed by natural-number index;
every structural attribute the code reads (`children`, `head`, `conjuncts`,
`ancestors`, `subtree`, `lefts`/`rights` via positions, `morph`) is a field
of the token record.  Recursive traversals of the code follow arbitrary
index links, so each recursive Python function becomes a fuel-indexed
Lean function returning `Option`; `none` means the fuel ran out.  All
definitions are executable and evaluate by kernel reduction.
-/

namespace WDW

/-- One parsed token, as produced by the linguistic parser
(read-only input of `svo_extraction.py`).  Mirrors the spaCy token
attributes the code uses: `i` (position), `text`, `lemma_`, `pos_`
(coarse class), `tag_` (fine tag), `dep_` (dependency label), `head`
(index of the head token), `children`, `conjuncts`, `ancestors` and
`subtree` (index sequences, in document order as spaCy yields them), and
the value of `morph.get "Mood"`. -/
structure Token where
  i : Nat
  text : String
  lemma_ : String
  pos_ : String
  tag_ : String
  dep_ : String
  head : Nat
  children : List Nat
  conjuncts : List Nat
  ancestors : List Nat
  subtree : List Nat
  morphMood : List String
deriving DecidableEq

/-- A parsed document: the token arena. -/
structure Doc where
  tokens : List Token
deriving DecidableEq

/-- Token lookup by index.  Out-of-range indices yield an inert default
token with no children and no conjuncts (the Python code never follows a
dangling index; the default keeps the embedding total). -/
def tok (d : Doc) (i : Nat) : Token :=
  d.tokens.getD i ⟨0, "", "", "", "", "", 0, [], [], [], [], []⟩

/-- A phrase as built by `get_compound_parts`: the main string and the
list of prepositional-phrase strings. -/
abbrev Phrase := String × List String

/-- Modelled from the spec: the module-level stoplists `_VAGUE_AUX` and
`_VAGUE_ADVMODS` are imported from `whodidwhat.resources`, which is not
among the sources.  The spec describes them as process-wide static
configuration; we model them as an explicit immutable parameter. -/
structure Cfg where
  vagueAux : List String
  vagueAdvmods : List String
deriving DecidableEq

/-- Python `" ".join` (and other separators): joins a list of strings. -/
def pyJoin (sep : String) : List String → String
  | [] => ""
  | [x] => x
  | x :: xs => x ++ sep ++ pyJoin sep xs

/-- Helper for the Python substring test: is the first list a prefix of
the second.  (Defined on character lists so it evaluates by kernel
reduction.) -/
def prefixChars : List Char → List Char → Bool
  | [], _ => true
  | _ :: _, [] => false
  | a :: as, b :: bs => a == b && prefixChars as bs

/-- Helper for the Python substring test: does the first list occur as a
contiguous sublist of the second. -/
def infixChars (needle : List Char) : List Char → Bool
  | [] => needle.isEmpty
  | c :: cs => prefixChars needle (c :: cs) || infixChars needle cs

/-- Python `needle in hay` on strings: substring containment.  Used for
the test `object_token.dep_ in ("acomp")` in `extract_objects`, whose
right-hand side is a plain string, so Python performs a substring
check. -/
def pyInStr (needle hay : String) : Bool :=
  infixChars needle.data hay.data

/-- Option-valued `mapM` by structural recursion (kernel-reducible and
easy to reason about); models a Python for-loop whose body may recurse. -/
def omapM {α β : Type} (f : α → Option β) : List α → Option (List β)
  | [] => some []
  | a :: l => do
    let b ← f a
    let r ← omapM f l
    pure (b :: r)

/-- Stable insertion (ascending by token position `i`) used to model
Python `sorted(..., key=lambda x: x.i)`. -/
def insertByI (d : Doc) (x : Nat) : List Nat → List Nat
  | [] => [x]
  | y :: ys => if (tok d y).i < (tok d x).i then y :: insertByI d x ys else x :: y :: ys

/-- Stable sort (ascending by token position `i`), modelling Python
`sorted(..., key=lambda x: x.i)`. -/
def sortByI (d : Doc) : List Nat → List Nat
  | [] => []
  | x :: xs => insertByI d x (sortByI d xs)

/-- spaCy `token.lefts`: syntactic children appearing before the token. -/
def lefts (d : Doc) (t : Token) : List Nat :=
  t.children.filter (fun c => (tok d c).i < t.i)

/-- spaCy `token.rights`: syntactic children appearing after the token. -/
def rights (d : Doc) (t : Token) : List Nat :=
  t.children.filter (fun c => t.i < (tok d c).i)

/-- The nominal part-of-speech test `pos_ in ("NOUN", "PROPN", "PRON")`
used throughout the code. -/
def isNominal (t : Token) : Bool :=
  t.pos_ == "NOUN" || t.pos_ == "PROPN" || t.pos_ == "PRON"

/-- Embedding of `get_compound_parts(token, lemmatize)` (source lines
418-517): determiners except bare articles, acl/relcl markers and their
subjects, the two-level modifier harvest (with the closure capture of
the loop variable `child` inside the local helper `get_conj_ADJ`, so
every call of that helper scans `child.conjuncts`), the modifiers sorted
stably by position, the token word itself, and separately the
prepositional phrases with their conjunct fan-out.  First argument is
fuel for the recursive calls. -/
def get_compound_parts : Nat → Doc → Nat → Bool → Option (String × List String)
  | 0, _, _, _ => none
  | n+1, d, ti, lem =>
    let t := tok d ti
    let wordOf : Token → String := fun x => if lem then x.lemma_ else x.text
    let dets := t.children.filter (fun c => (tok d c).dep_ == "det"
        && !((tok d c).lemma_ == "the" || (tok d c).lemma_ == "a" || (tok d c).lemma_ == "an"))
    let parts0 := dets.map (fun c => wordOf (tok d c))
    do
    let aclRes ← omapM (fun c => do
          let marks := ((tok d c).children.filter (fun m => (tok d m).dep_ == "mark")).map
              (fun m => wordOf (tok d m))
          let subRes ← omapM (fun m => get_compound_parts n d m lem)
              ((tok d c).children.filter (fun m => (tok d m).dep_ == "nsubj"))
          pure (marks ++ subRes.map Prod.fst, (subRes.map Prod.snd).flatten))
        (t.children.filter (fun c => (tok d c).dep_ == "acl" || (tok d c).dep_ == "relcl"))
    let parts1 := parts0 ++ (aclRes.map Prod.fst).flatten
    let aclPreps := (aclRes.map Prod.snd).flatten
    let conjADJ : Nat → List Nat := fun c =>
      (tok d c).conjuncts.filter (fun j => (tok d j).pos_ == "ADJ" && (tok d j).dep_ == "conj")
    let modDep : Nat → Bool := fun g =>
      (tok d g).dep_ == "compound" || (tok d g).dep_ == "nmod" || (tok d g).dep_ == "advmod"
        || (tok d g).dep_ == "amod" || (tok d g).dep_ == "npadvmod"
    let modifiers := t.children.flatMap (fun c =>
      if (((tok d c).dep_ == "compound" || (tok d c).dep_ == "amod" || (tok d c).dep_ == "nmod")
            || (((tok d c).dep_ == "advmod" || (tok d c).dep_ == "npadvmod")
                 && (t.pos_ == "VERB" || t.pos_ == "AUX")))
          && !((tok d c).pos_ == "SCONJ" || (tok d c).pos_ == "CCONJ" || (tok d c).pos_ == "PART") then
        [c] ++ conjADJ c
          ++ (tok d c).children.flatMap (fun g =>
               (if modDep g then [g] ++ conjADJ c else [])
                 ++ (tok d g).children.flatMap (fun gg =>
                      if modDep gg then [gg] ++ conjADJ c else []))
      else [])
    let parts2 := parts1 ++ (sortByI d modifiers).map (fun m => wordOf (tok d m)) ++ [wordOf t]
    let prepRes ← omapM (fun p0 => omapM (fun p => do
            let inner ← omapM (fun pobj => omapM (fun itm => do
                    let mp ← get_compound_parts n d itm lem
                    pure (mp.1 :: mp.2))
                  (pobj :: (tok d pobj).conjuncts))
                ((tok d p).children.filter (fun c => (tok d c).dep_ == "pobj"))
            pure (pyJoin " " ((tok d p).text :: inner.flatten.flatten)))
          (p0 :: (tok d p0).conjuncts))
        (t.children.filter (fun c => (tok d c).dep_ == "prep"))
    pure (pyJoin " " parts2, aclPreps ++ prepRes.flatten)

/-- Embedding of `extract_clause(token)` (source lines 540-548): the
lemmas of the subtree, sorted by position and joined by spaces. -/
def extract_clause (d : Doc) (c : Nat) : String :=
  pyJoin " " ((sortByI d (tok d c).subtree).map (fun x => (tok d x).lemma_))

/-- Embedding of `extract_subjects(subject_token)` (source lines
387-414): the token itself when nominal (surface form, lemmatize=False)
plus its nominal conjuncts, each assembled with lemmatize=False. -/
def extract_subjects : Nat → Doc → Nat → Option (List Phrase)
  | 0, _, _ => none
  | n+1, d, s =>
    let t := tok d s
    do
    let base ← if isNominal t then do
        let mp ← get_compound_parts n d s false
        pure [mp]
      else pure ([] : List Phrase)
    let more ← omapM (fun j => get_compound_parts n d j false)
        (t.conjuncts.filter (fun j => isNominal (tok d j)))
    pure (base ++ more)

/-- Embedding of `extract_objects(object_token)` (source lines 637-670):
the token itself when nominal or when its dependency label passes the
Python substring test against "acomp", assembled with the default
lemmatize=True, prefixing the governing preposition text for "pobj"
tokens; plus the nominal/ADJ conjuncts, likewise. -/
def extract_objects : Nat → Doc → Nat → Option (List Phrase)
  | 0, _, _ => none
  | n+1, d, o =>
    let t := tok d o
    do
    let base ← if isNominal t || pyInStr t.dep_ "acomp" then do
        let mp ← get_compound_parts n d o true
        let m := if t.dep_ == "pobj" then (tok d t.head).text ++ " " ++ mp.1 else mp.1
        pure [((m, mp.2) : Phrase)]
      else pure ([] : List Phrase)
    let more ← omapM (fun j => do
          let mp ← get_compound_parts n d j true
          let m := if (tok d j).dep_ == "pobj" then (tok d (tok d j).head).text ++ " " ++ mp.1
            else mp.1
          pure ((m, mp.2) : Phrase))
        (t.conjuncts.filter (fun j => (tok d j).pos_ == "NOUN" || (tok d j).pos_ == "PROPN"
            || (tok d j).pos_ == "PRON" || (tok d j).pos_ == "ADJ"))
    pure (base ++ more)

/-- Inner loop of the ancestor-inheritance branch of `get_verb_subjects`
(source lines 361-364): extend with `extract_subjects` of each candidate
child until the accumulator becomes non-empty, then break. -/
def anc_subj_scan (n : Nat) (d : Doc) : List Nat → Option (List Phrase)
  | [] => some []
  | c :: cs => do
    let s ← extract_subjects n d c
    if s.isEmpty then do
      let r ← anc_subj_scan n d cs
      pure (s ++ r)
    else pure s

/-- Outer loop of the ancestor-inheritance branch of `get_verb_subjects`
(source lines 356-366): walk the ancestors, stop at the first one whose
nsubj/nsubjpass/csubj children yield a non-empty subject list. -/
def anc_subj_loop (n : Nat) (d : Doc) : List Nat → Option (List Phrase)
  | [] => some []
  | a :: rest => do
    let s ← anc_subj_scan n d
        ((tok d a).children.filter (fun c => (tok d c).dep_ == "nsubj"
            || (tok d c).dep_ == "nsubjpass" || (tok d c).dep_ == "csubj"))
    if s.isEmpty then anc_subj_loop n d rest else pure s

/-- The direct-subject rule of `get_verb_subjects` (source lines
327-330): the children whose dependency label is exactly "nsubj". -/
def directSubjChildren (d : Doc) (v : Nat) : List Nat :=
  (tok d v).children.filter (fun c => (tok d c).dep_ == "nsubj")

/-- Embedding of `get_verb_subjects(verb)` (source lines 295-384).
Branches in source order: the short-circuiting acl/relcl branch; direct
nsubj children; csubj clauses; the passive agent (nsubjpass plus agent,
taking the pobj of the agent preposition); ancestor inheritance when
still empty; conjunct-head inheritance when still empty (an unguarded
recursion through the head link); additive conj-noun children; and the
imperative default subject "you". -/
def get_verb_subjects : Nat → Doc → Nat → Option (List Phrase)
  | 0, _, _ => none
  | n+1, d, v =>
    let t := tok d v
    if t.dep_ == "acl" || t.dep_ == "relcl" then
      let nsubjs := t.children.filter (fun c => (tok d c).dep_ == "nsubj")
      if nsubjs.isEmpty then
        (get_compound_parts n d t.head false).map (fun mp => [mp])
      else
        (omapM (extract_subjects n d) nsubjs).map List.flatten
    else do
      let s1 ← omapM (extract_subjects n d) (directSubjChildren d v)
      let s2 := (t.children.filter (fun c => (tok d c).dep_ == "csubj")).map
          (fun c => ((extract_clause d c, []) : Phrase))
      let s3 ←
        if t.children.any (fun c => (tok d c).dep_ == "nsubjpass") then do
          let ls ← omapM (fun a => do
                let xs ← omapM (extract_subjects n d)
                    ((tok d a).children.filter (fun g => (tok d g).dep_ == "pobj"))
                pure xs.flatten)
              (t.children.filter (fun c => (tok d c).dep_ == "agent"))
          pure ls.flatten
        else pure ([] : List Phrase)
      let subs0 := s1.flatten ++ s2 ++ s3
      let subs1 ← if subs0.isEmpty then anc_subj_loop n d t.ancestors else pure subs0
      let subs2 ← if subs1.isEmpty && t.dep_ == "conj" && (tok d t.head).pos_ == "VERB" then
          get_verb_subjects n d t.head
        else pure subs1
      let s4 ← omapM (extract_subjects n d)
          (t.children.filter (fun c => (tok d c).dep_ == "conj" && isNominal (tok d c)))
      let subs3 := subs2 ++ s4.flatten
      pure (if subs3.isEmpty && t.head == v && (t.morphMood == ["Imp"] || t.tag_ == "VB") then
          subs3 ++ [(("you", []) : Phrase)]
        else subs3)

/-- The fold of `get_conjuncts` over a conjunct list: skip the already
visited tokens, otherwise recurse through `f` (which will be
`get_conjuncts` at smaller fuel), threading the shared visited set just
as the Python code mutates its `visited` argument in place. -/
def conj_fold (f : Nat → List Nat → Option (List Nat × List Nat)) :
    List Nat → List Nat × List Nat → Option (List Nat × List Nat)
  | [], st => some st
  | c :: cs, st =>
    if c ∈ st.2 then conj_fold f cs st
    else
      match f c st.2 with
      | none => none
      | some r => conj_fold f cs (st.1 ++ r.1, r.2)

/-- Embedding of `get_conjuncts(token, visited)` (source lines 520-538):
the token plus, recursively, every not-yet-visited conjunct, guarded by
the explicit visited set.  Returns the collected list together with the
final visited set (Python mutates the caller-shared set). -/
def get_conjuncts : Nat → Doc → Nat → List Nat → Option (List Nat × List Nat)
  | 0, _, _, _ => none
  | n+1, d, t, visited =>
    conj_fold (fun c vis => get_conjuncts n d c vis) (tok d t).conjuncts ([t], t :: visited)

/-- The conjunct-inheritance loop at the end of `get_verb_objects`
(source lines 624-631): the first conj VERB child with a non-empty
recursive object list wins; `f` is `get_verb_objects` at smaller fuel. -/
def conj_obj_loop (f : Nat → Option (List Phrase)) (d : Doc) : List Nat → Option (List Phrase)
  | [] => some []
  | c :: cs =>
    if (tok d c).dep_ == "conj" && (tok d c).pos_ == "VERB" then
      match f c with
      | none => none
      | some xs => if xs.isEmpty then conj_obj_loop f d cs else some xs
    else conj_obj_loop f d cs

/-- Embedding of `get_verb_objects(verb)` (source lines 551-634), in
source order: direct objects (dobj/attr/oprd/acomp); indirect objects;
prepositional objects through `get_conjuncts` fan-out; the passive
nsubjpass-as-object rule for VBN/VBD verbs; PROPN/PRON npadvmod
children; ccomp subjects promoted to objects; xcomp delegation with
direct-object fallback; and conjunct inheritance when nothing was
found. -/
def get_verb_objects : Nat → Doc → Nat → Option (List Phrase)
  | 0, _, _ => none
  | n+1, d, v =>
    let t := tok d v
    do
    let o1 ← omapM (extract_objects n d)
        (t.children.filter (fun c => (tok d c).dep_ == "dobj" || (tok d c).dep_ == "attr"
            || (tok d c).dep_ == "oprd" || (tok d c).dep_ == "acomp"))
    let o2 ← omapM (extract_objects n d)
        (t.children.filter (fun c => (tok d c).dep_ == "iobj"))
    let o3 ← omapM (fun prep => do
          let pr ← get_conjuncts n d prep []
          let xs ← omapM (fun p => do
                let ys ← omapM (extract_objects n d)
                    ((tok d p).children.filter (fun c => (tok d c).dep_ == "pobj"))
                pure ys.flatten)
              pr.1
          pure xs.flatten)
        (t.children.filter (fun c => (tok d c).dep_ == "prep"))
    let o4 ←
      if (t.tag_ == "VBN" || t.tag_ == "VBD")
          && t.children.any (fun c => (tok d c).dep_ == "nsubjpass") then do
        let xs ← omapM (extract_objects n d)
            (t.children.filter (fun c => (tok d c).dep_ == "nsubjpass"))
        pure xs.flatten
      else pure ([] : List Phrase)
    let o5 ← omapM (extract_objects n d)
        (t.children.filter (fun c => (tok d c).dep_ == "npadvmod"
            && ((tok d c).pos_ == "PROPN" || (tok d c).pos_ == "PRON")))
    let o6 ← omapM (fun c => do
          let xs ← omapM (extract_subjects n d)
              ((tok d c).children.filter (fun g => (tok d g).dep_ == "nsubj"
                  || (tok d g).dep_ == "nsubjpass"))
          pure xs.flatten)
        (t.children.filter (fun c => (tok d c).dep_ == "ccomp"))
    let o7 ← omapM (fun x => do
          let xo ← get_verb_objects n d x
          if xo.isEmpty then do
            let xs ← omapM (extract_objects n d)
                ((tok d x).children.filter (fun c => (tok d c).dep_ == "dobj"
                    || (tok d c).dep_ == "attr" || (tok d c).dep_ == "oprd"))
            pure xs.flatten
          else pure xo)
        (t.children.filter (fun c => (tok d c).dep_ == "xcomp"))
    let objs := o1.flatten ++ o2.flatten ++ o3.flatten ++ o4 ++ o5.flatten
        ++ o6.flatten ++ o7.flatten
    if objs.isEmpty then conj_obj_loop (fun c => get_verb_objects n d c) d t.children
    else pure objs

/-- The adverbial-modifier condition of `get_verb_phrase` (source lines
242-276): advmod/amod/npadvmod children that are not
SCONJ/CCONJ/PART/DET and whose lemma is not in the vague-adverb
stoplist. -/
def advmodCond (cfg : Cfg) (d : Doc) (c : Nat) : Bool :=
  ((tok d c).dep_ == "advmod" || (tok d c).dep_ == "amod" || (tok d c).dep_ == "npadvmod")
    && !((tok d c).pos_ == "SCONJ" || (tok d c).pos_ == "CCONJ" || (tok d c).pos_ == "PART"
        || (tok d c).pos_ == "DET")
    && !(cfg.vagueAdvmods.contains (tok d c).lemma_)

/-- The auxiliary/negation condition of `get_verb_phrase` (source lines
233 and 279): aux/auxpass/neg children whose lemma is not in the
vague-auxiliary stoplist. -/
def auxCond (cfg : Cfg) (d : Doc) (c : Nat) : Bool :=
  ((tok d c).dep_ == "aux" || (tok d c).dep_ == "auxpass" || (tok d c).dep_ == "neg")
    && !(cfg.vagueAux.contains (tok d c).lemma_)

/-- Embedding of `get_verb_phrase(verb)` (source lines 225-291):
leading auxiliaries/negations (lemmas), leading adverbial modifiers
(each through `get_compound_parts` with the default lemmatize=True,
main part only), the verb lemma, trailing adverbial modifiers, trailing
auxiliaries/negations, then for each xcomp child its lemma followed by
`child_verb_phrase[1:]` of the recursive call; everything joined into a
single-element list. -/
def get_verb_phrase (cfg : Cfg) : Nat → Doc → Nat → Option (List String)
  | 0, _, _ => none
  | n+1, d, v =>
    let t := tok d v
    let ls := lefts d t
    let rs := rights d t
    do
    let aux1 := (ls.filter (auxCond cfg d)).map (fun c => (tok d c).lemma_)
    let adv1 ← omapM (fun c => do
          let mp ← get_compound_parts n d c true
          pure mp.1)
        (ls.filter (advmodCond cfg d))
    let adv2 ← omapM (fun c => do
          let mp ← get_compound_parts n d c true
          pure mp.1)
        (rs.filter (advmodCond cfg d))
    let aux2 := (rs.filter (auxCond cfg d)).map (fun c => (tok d c).lemma_)
    let xparts ← omapM (fun c => do
          let cp ← get_verb_phrase cfg n d c
          pure ((tok d c).lemma_ :: cp.drop 1))
        (t.children.filter (fun c => (tok d c).dep_ == "xcomp"))
    pure [pyJoin " " (aux1 ++ adv1 ++ [t.lemma_] ++ adv2 ++ aux2 ++ xparts.flatten)]

/-- The qualifying-token filter of `extract_svos` (source lines
114-117): coarse class VERB or AUX, own dependency label outside the
seven-label exclusion set, and not a conj whose head carries one of the
six labels aux/auxpass/amod/prep/xcomp/csubj (note: the conj-head list
in the source omits npadvmod). -/
def qualifies (d : Doc) (t : Token) : Bool :=
  (t.pos_ == "VERB" || t.pos_ == "AUX")
    && !(t.dep_ == "aux" || t.dep_ == "auxpass" || t.dep_ == "amod" || t.dep_ == "npadvmod"
        || t.dep_ == "prep" || t.dep_ == "xcomp" || t.dep_ == "csubj")
    && !(t.dep_ == "conj" && ((tok d t.head).dep_ == "aux" || (tok d t.head).dep_ == "auxpass"
        || (tok d t.head).dep_ == "amod" || (tok d t.head).dep_ == "prep"
        || (tok d t.head).dep_ == "xcomp" || (tok d t.head).dep_ == "csubj"))

/-- Spec-side qualifying filter for claim C1 (written from the words of
the spec, to be compared with `qualifies` from the source): VERB or AUX,
own label outside the seven-label set, and not a conj whose head carries
one of those same seven labels. -/
def qualifiesSpecC1 (d : Doc) (t : Token) : Bool :=
  (t.pos_ == "VERB" || t.pos_ == "AUX")
    && !(t.dep_ == "aux" || t.dep_ == "auxpass" || t.dep_ == "amod" || t.dep_ == "npadvmod"
        || t.dep_ == "prep" || t.dep_ == "xcomp" || t.dep_ == "csubj")
    && !(t.dep_ == "conj" && ((tok d t.head).dep_ == "aux" || (tok d t.head).dep_ == "auxpass"
        || (tok d t.head).dep_ == "amod" || (tok d t.head).dep_ == "npadvmod"
        || (tok d t.head).dep_ == "prep" || (tok d t.head).dep_ == "xcomp"
        || (tok d t.head).dep_ == "csubj"))

/-- One collected triple of `extract_svos`: subjects, verb phrase,
objects. -/
structure SVO where
  subjects : List Phrase
  verbs : List String
  objects : List Phrase
deriving DecidableEq

/-- Indices of the qualifying action tokens, in document order
(the `for possible_verb in doc` loop of `extract_svos`). -/
def qualIdx (d : Doc) : List Nat :=
  (List.range d.tokens.length).filter (fun k => qualifies d (tok d k))

/-- The collection loop of `extract_svos` (source lines 114-123):
resolve subjects, objects and verb phrase for every qualifying token. -/
def svoTriples (cfg : Cfg) (n : Nat) (d : Doc) : Option (List SVO) :=
  omapM (fun k => do
      let s ← get_verb_subjects n d k
      let o ← get_verb_objects n d k
      let vp ← get_verb_phrase cfg n d k
      pure (SVO.mk s vp o))
    (qualIdx d)

/-- An apostrophe, built from its character code so it can be spliced
into the modelled Python `str()` output. -/
def sq : String := String.singleton (Char.ofNat 39)

/-- Python `str` of a string inside a container: wrapped in single
quotes.  (Modelled for strings without embedded quotes or escapes, the
only case exercised here; the trace is opaque free text for the
claims.) -/
def pyRepr (s : String) : String := sq ++ s ++ sq

/-- Python `str` of a list of strings. -/
def pyReprStrList (l : List String) : String :=
  "[" ++ pyJoin ", " (l.map pyRepr) ++ "]"

/-- Python `str` of a (phrase, preposition-list) tuple. -/
def pyReprPhrase (p : Phrase) : String :=
  "(" ++ pyRepr p.1 ++ ", " ++ pyReprStrList p.2 ++ ")"

/-- Python `str` of a list of phrase tuples. -/
def pyReprPhraseList (l : List Phrase) : String :=
  "[" ++ pyJoin ", " (l.map pyReprPhrase) ++ "]"

/-- The per-token trace `hypergraph = str(svo)` (source line 131). -/
def svoTrace (s : SVO) : String :=
  "[" ++ pyReprPhraseList s.subjects ++ ", " ++ pyReprStrList s.verbs ++ ", "
    ++ pyReprPhraseList s.objects ++ "]"

/-- One output row of the relation table, with the DataFrame columns
Node 1, WDW, Node 2, WDW2, Hypergraph, Semantic-Syntactic. -/
structure Row where
  node1 : String
  wdw : String
  node2 : String
  wdw2 : String
  hypergraph : String
  semsyn : Nat
deriving DecidableEq

/-- Python `itertools.combinations(l, 2)`: ordered pairs of positions
i < j, in lexicographic position order. -/
def combinations2 {α : Type} : List α → List (α × α)
  | [] => []
  | x :: xs => xs.map (fun y => (x, y)) ++ combinations2 xs

/-- The syntactic rows emitted for one SVO triple (source lines
129-182): Who-Did per subject x verb, Did-What per verb x object,
Who-Who per subject pair when at least two subjects, What-What per
object pair when at least two objects, all with the shared trace and
Semantic-Syntactic = 0. -/
def buildSyntacticRows (svo : SVO) : List Row :=
  let h := svoTrace svo
  (svo.subjects.flatMap (fun s => svo.verbs.map
      (fun v => (⟨s.1, "Who", v, "Did", h, 0⟩ : Row))))
    ++ (svo.verbs.flatMap (fun v => svo.objects.map
      (fun o => (⟨v, "Did", o.1, "What", h, 0⟩ : Row))))
    ++ (if svo.subjects.length > 1 then
        (combinations2 svo.subjects).map
          (fun pq => (⟨pq.1.1, "Who", pq.2.1, "Who", h, 0⟩ : Row))
      else [])
    ++ (if svo.objects.length > 1 then
        (combinations2 svo.objects).map
          (fun pq => (⟨pq.1.1, "What", pq.2.1, "What", h, 0⟩ : Row))
      else [])

/-- All subject strings across the collected triples (source line
186). -/
def allSubjectStrings (ts : List SVO) : List String :=
  ts.flatMap (fun s => s.subjects.map Prod.fst)

/-- All object strings across the collected triples (source line
187). -/
def allObjectStrings (ts : List SVO) : List String :=
  ts.flatMap (fun s => s.objects.map Prod.fst)

/-- The semantic augmentation pass (source lines 184-218): deduplicate
the subject and object strings (Python `list(set(...))`, modelled by
`List.dedup`; the claims only depend on the deduplicated membership),
query the synonym oracle on each unordered pair, and emit Who-Who and
What-What rows with trace "N/A" and Semantic-Syntactic = 1. -/
def semanticRows (syn : String → String → Bool) (ts : List SVO) : List Row :=
  ((combinations2 (allSubjectStrings ts).dedup).filter (fun pq => syn pq.1 pq.2)).map
      (fun pq => (⟨pq.1, "Who", pq.2, "Who", "N/A", 1⟩ : Row))
    ++ ((combinations2 (allObjectStrings ts).dedup).filter (fun pq => syn pq.1 pq.2)).map
      (fun pq => (⟨pq.1, "What", pq.2, "What", "N/A", 1⟩ : Row))

/-- The DataFrame column list (source line 221). -/
def svoColumns : List String :=
  ["Node 1", "WDW", "Node 2", "WDW2", "Hypergraph", "Semantic-Syntactic"]

/-- The returned relation table: rows plus the fixed column shape. -/
structure DataFrame where
  rows : List Row
  columns : List String
deriving DecidableEq

/-- All data rows of `extract_svos`, in emission order: the syntactic
rows in token traversal order, then the semantic rows. -/
def buildAllRows (syn : String → String → Bool) (ts : List SVO) : List Row :=
  (ts.map buildSyntacticRows).flatten ++ semanticRows syn ts

/-- Embedding of `extract_svos(doc)` (source lines 106-223), with the
stoplist configuration, the synonym oracle (`are_synonyms`, an external
collaborator over WordNet) and the recursion fuel as parameters. -/
def extract_svos (cfg : Cfg) (syn : String → String → Bool) (n : Nat) (d : Doc) :
    Option DataFrame :=
  (svoTriples cfg n d).map (fun ts => ⟨buildAllRows syn ts, svoColumns⟩)

/-! ### Concrete documents used by witnesses and counterexamples -/

/-- The empty stoplist configuration. -/
def cfg0 : Cfg := ⟨[], []⟩

/-- A synonym oracle that never fires. -/
def noSyn : String → String → Bool := fun _ _ => false

/-- A symmetric synonym oracle relating exactly alice and bob. -/
def synAB : String → String → Bool :=
  fun a b => (a == "alice" && b == "bob") || (b == "alice" && a == "bob")

/-- Parsed document for "alice runs. bob walks.": two clauses, each a
root verb with one nominal subject. -/
def dAlice : Doc := ⟨[
  ⟨0, "alice", "alice", "PROPN", "NNP", "nsubj", 1, [], [], [1], [0], []⟩,
  ⟨1, "runs", "run", "VERB", "VBZ", "ROOT", 1, [0], [], [], [0, 1], []⟩,
  ⟨2, "bob", "bob", "PROPN", "NNP", "nsubj", 3, [], [], [3], [2], []⟩,
  ⟨3, "walks", "walk", "VERB", "VBZ", "ROOT", 3, [2], [], [], [2, 3], []⟩]⟩

/-- Parsed document for the clause "eat apples pears": a root verb with
two direct objects and no subject. -/
def dPears : Doc := ⟨[
  ⟨0, "eat", "eat", "VERB", "VBP", "ROOT", 0, [1, 2], [], [], [0, 1, 2], []⟩,
  ⟨1, "apples", "apple", "NOUN", "NNS", "dobj", 0, [], [], [0], [1], []⟩,
  ⟨2, "pears", "pear", "NOUN", "NNS", "dobj", 0, [], [], [0], [2], []⟩]⟩

/-- The SVO triple collected for `dPears`. -/
def svoPears : SVO := ⟨[], ["eat"], [("apple", []), ("pear", [])]⟩

/-- The relation table returned for `dPears`. -/
def dfPears : DataFrame :=
  ⟨[⟨"eat", "Did", "apple", "What", svoTrace svoPears, 0⟩,
    ⟨"eat", "Did", "pear", "What", svoTrace svoPears, 0⟩,
    ⟨"apple", "What", "pear", "What", svoTrace svoPears, 0⟩], svoColumns⟩

/-- Parsed document for "The cake was eaten by alice": passive verb
with nsubjpass, auxpass and an agent phrase carrying a pobj. -/
def dPassive : Doc := ⟨[
  ⟨0, "cake", "cake", "NOUN", "NN", "nsubjpass", 2, [], [], [2], [0], []⟩,
  ⟨1, "was", "be", "AUX", "VBD", "auxpass", 2, [], [], [2], [1], []⟩,
  ⟨2, "eaten", "eat", "VERB", "VBN", "ROOT", 2, [0, 1, 3], [], [], [0, 1, 2, 3, 4], []⟩,
  ⟨3, "by", "by", "ADP", "IN", "agent", 2, [4], [], [2], [3, 4], []⟩,
  ⟨4, "alice", "alice", "PROPN", "NNP", "pobj", 3, [], [], [3, 2], [4], []⟩]⟩

/-- Parsed document for "want not (to) go": a root verb with an xcomp
child that carries a negation. -/
def dWant : Doc := ⟨[
  ⟨0, "want", "want", "VERB", "VBP", "ROOT", 0, [2], [], [], [0, 1, 2], []⟩,
  ⟨1, "not", "not", "PART", "RB", "neg", 2, [], [], [2, 0], [1], []⟩,
  ⟨2, "go", "go", "VERB", "VB", "xcomp", 0, [1], [], [0], [1, 2], []⟩]⟩

/-- Parsed document for "man running": a noun modified by a relative
clause verb that has no subject of its own. -/
def dRel : Doc := ⟨[
  ⟨0, "man", "man", "NOUN", "NN", "ROOT", 0, [1], [], [], [0, 1], []⟩,
  ⟨1, "running", "run", "VERB", "VBG", "relcl", 0, [], [], [0], [1], []⟩]⟩

/-- A pathological one-token structure: the token is its own head, with
dependency label conj and class VERB, so the conjunct-inheritance
recursion of `get_verb_subjects` calls itself forever. -/
def dCyc : Doc := ⟨[⟨0, "do", "do", "VERB", "VBP", "conj", 0, [], [], [], [0], []⟩]⟩

/-- Two tokens whose conjunct side-links form a cycle (0 lists 1, 1
lists 0), exercising the visited-set guard of `get_conjuncts`. -/
def dCyc2 : Doc := ⟨[
  ⟨0, "a", "a", "NOUN", "NN", "ROOT", 0, [], [1], [], [0], []⟩,
  ⟨1, "b", "b", "NOUN", "NN", "conj", 0, [], [0], [0], [1], []⟩]⟩

/-- A single bare noun token whose surface form and lemma differ. -/
def dApples : Doc := ⟨[⟨0, "apples", "apple", "NOUN", "NNS", "dobj", 0, [], [], [], [0], []⟩]⟩

/-- A VERB token attached as conj under a head whose label is npadvmod:
the token the source filter accepts but the seven-label spec filter
rejects. -/
def dConjHead : Doc := ⟨[
  ⟨0, "x", "x", "VERB", "VB", "npadvmod", 0, [1], [], [], [0, 1], []⟩,
  ⟨1, "y", "y", "VERB", "VB", "conj", 0, [], [], [0], [1], []⟩]⟩

/-- The SVO triple collected for the first clause of `dAlice`. -/
def svoAliceRun : SVO := ⟨[("alice", [])], ["run"], []⟩

/-- The SVO triple collected for the second clause of `dAlice`. -/
def svoBobWalk : SVO := ⟨[("bob", [])], ["walk"], []⟩

/-- The triple list collected for `dAlice`. -/
def tsAlice : List SVO := [svoAliceRun, svoBobWalk]

/-- The relation table returned for `dAlice` under the oracle `synAB`:
two syntactic Who-Did rows followed by one semantic Who-Who row. -/
def dfAlice : DataFrame :=
  ⟨[⟨"alice", "Who", "run", "Did", svoTrace svoAliceRun, 0⟩,
    ⟨"bob", "Who", "walk", "Did", svoTrace svoBobWalk, 0⟩,
    ⟨"alice", "Who", "bob", "Who", "N/A", 1⟩], svoColumns⟩

/-- An SVO triple with exactly two subjects, one verb phrase and three
objects (for the cross-product count witness). -/
def svoW : SVO := ⟨[("a", []), ("b", [])], ["v"], [("x", []), ("y", []), ("z", [])]⟩

/-- Recognizer for a semantic row of the given role (Who or What) over
an unordered string pair: Semantic-Syntactic 1, both roles equal to the
given one, and the two node strings equal to the pair in either
order. -/
def isPairRow (w s1 s2 : String) (r : Row) : Bool :=
  r.semsyn == 1 && r.wdw == w && r.wdw2 == w
    && ((r.node1 == s1 && r.node2 == s2) || (r.node1 == s2 && r.node2 == s1))

/-- Does the ordered pair consist of the two given strings, in either
order. -/
def pairMatch (s1 s2 : String) (pq : String × String) : Bool :=
  (pq.1 == s1 && pq.2 == s2) || (pq.1 == s2 && pq.2 == s1)

/-- Every index that occurs in some conjunct list of the document: the
only tokens the conjunct-chasing of `get_conjuncts` can ever recurse
into. -/
def conjUniverse (d : Doc) : List Nat :=
  (d.tokens.map Token.conjuncts).flatten

/-- The part of the conjunct universe not yet visited: the termination
measure of the visited-set recursion. -/
def unvisited (d : Doc) (vis : List Nat) : List Nat :=
  (conjUniverse d).filter (fun x => decide (¬ x ∈ vis))

/-- The fuel-indexed embedding of `get_verb_subjects` fails to return at
every fuel value: the Python original loops forever on this input. -/
def getVerbSubjectsDiverges (d : Doc) (v : Nat) : Prop :=
  ∀ n, get_verb_subjects n d v = none

/-! ### Helper lemmas -/

theorem omapM_nil {α β : Type} (f : α → Option β) : omapM f [] = some [] := rfl

theorem omapM_cons {α β : Type} (f : α → Option β) (a : α) (l : List α) :
    omapM f (a :: l) = (f a).bind (fun b => (omapM f l).bind (fun r => some (b :: r))) := rfl

theorem omapM_mem {α β : Type} {f : α → Option β} {l : List α} {r : List β} {a : α}
    (h : omapM f l = some r) (ha : a ∈ l) : ∃ b, f a = some b ∧ b ∈ r := by
  induction l generalizing r with
  | nil => cases ha
  | cons x xs ih =>
    rw [omapM_cons, Option.bind_eq_some] at h
    obtain ⟨b, hb, h⟩ := h
    rw [Option.bind_eq_some] at h
    obtain ⟨rs, hrs, h⟩ := h
    obtain rfl : b :: rs = r := by simpa using h
    rcases List.mem_cons.mp ha with rfl | ha2
    · exact ⟨b, hb, List.mem_cons_self _ _⟩
    · obtain ⟨b2, hb2, hmem⟩ := ih hrs ha2
      exact ⟨b2, hb2, List.mem_cons_of_mem _ hmem⟩

theorem mem_ite_nil {α : Type} {c : Prop} [Decidable c] {l : List α} {r : α}
    (h : r ∈ (if c then l else [])) : r ∈ l := by
  split at h
  · exact h
  · cases h

theorem mem_buildSyntacticRows {r : Row} {svo : SVO} (h : r ∈ buildSyntacticRows svo) :
    r.semsyn = 0 ∧ ((r.wdw = "Who" ∧ r.wdw2 = "Did") ∨ (r.wdw = "Did" ∧ r.wdw2 = "What")
      ∨ (r.wdw = "Who" ∧ r.wdw2 = "Who") ∨ (r.wdw = "What" ∧ r.wdw2 = "What")) := by
  unfold buildSyntacticRows at h
  simp only [List.mem_append] at h
  rcases h with ((h | h) | h) | h
  · simp only [List.mem_flatMap, List.mem_map] at h
    obtain ⟨s, _, v, _, rfl⟩ := h
    simp
  · simp only [List.mem_flatMap, List.mem_map] at h
    obtain ⟨v, _, o, _, rfl⟩ := h
    simp
  · have h2 := mem_ite_nil h
    simp only [List.mem_map] at h2
    obtain ⟨pq, _, rfl⟩ := h2
    simp
  · have h2 := mem_ite_nil h
    simp only [List.mem_map] at h2
    obtain ⟨pq, _, rfl⟩ := h2
    simp

theorem mem_semanticRows {syn : String → String → Bool} {ts : List SVO} {r : Row}
    (h : r ∈ semanticRows syn ts) :
    r.semsyn = 1 ∧ r.hypergraph = "N/A"
      ∧ ((r.wdw = "Who" ∧ r.wdw2 = "Who") ∨ (r.wdw = "What" ∧ r.wdw2 = "What")) := by
  unfold semanticRows at h
  simp only [List.mem_append, List.mem_map, List.mem_filter] at h
  rcases h with ⟨pq, _, rfl⟩ | ⟨pq, _, rfl⟩ <;> simp

theorem extract_svos_inv {cfg : Cfg} {syn : String → String → Bool} {n : Nat} {d : Doc}
    {df : DataFrame} (h : extract_svos cfg syn n d = some df) :
    ∃ ts, svoTriples cfg n d = some ts ∧ df = ⟨buildAllRows syn ts, svoColumns⟩ := by
  unfold extract_svos at h
  rw [Option.map_eq_some'] at h
  obtain ⟨ts, h1, h2⟩ := h
  exact ⟨ts, h1, h2.symm⟩

theorem compound_parts_bare (n : Nat) (d : Doc) (s : Nat) (lem : Bool)
    (hch : (tok d s).children = []) :
    get_compound_parts (n+1) d s lem
      = some (if lem then (tok d s).lemma_ else (tok d s).text, []) := by
  simp [get_compound_parts, hch, omapM, sortByI, pyJoin]

/-! ### Claim C1 -/

/-- C1 counterexample: a VERB token with dependency label conj whose
head carries the label npadvmod qualifies in the source filter, while
the seven-label filter stated by the claim rejects it (the conj-head
exclusion list in the source has only six labels, omitting
npadvmod). -/
theorem c1_counterexample :
    qualifies dConjHead (tok dConjHead 1) = true
      ∧ qualifiesSpecC1 dConjHead (tok dConjHead 1) = false := by
  constructor <;> rfl

/-- C1 (amended): a token qualifies for extraction iff its coarse class
is VERB or AUX, its own dependency label is outside the seven-label set
aux/auxpass/amod/npadvmod/prep/xcomp/csubj, and it is not a conj whose
head carries one of the six labels aux/auxpass/amod/prep/xcomp/csubj
(npadvmod is absent from the conj-head list). -/
theorem c1_filter_characterization (d : Doc) (t : Token) :
    qualifies d t = true ↔
      ((t.pos_ = "VERB" ∨ t.pos_ = "AUX")
        ∧ ¬(t.dep_ = "aux" ∨ t.dep_ = "auxpass" ∨ t.dep_ = "amod" ∨ t.dep_ = "npadvmod"
            ∨ t.dep_ = "prep" ∨ t.dep_ = "xcomp" ∨ t.dep_ = "csubj")
        ∧ ¬(t.dep_ = "conj" ∧ ((tok d t.head).dep_ = "aux" ∨ (tok d t.head).dep_ = "auxpass"
            ∨ (tok d t.head).dep_ = "amod" ∨ (tok d t.head).dep_ = "prep"
            ∨ (tok d t.head).dep_ = "xcomp" ∨ (tok d t.head).dep_ = "csubj"))) := by
  simp [qualifies]
  tauto

/-! ### Claim C2 -/

/-- C2 counterexample: the table for `dPears` contains a What-What row,
whose Role1 value "What" is outside the claimed set of Role1 values
Who/Did. -/
theorem c2_counterexample :
    extract_svos cfg0 noSyn 6 dPears = some dfPears
      ∧ (⟨"apple", "What", "pear", "What", svoTrace svoPears, 0⟩ : Row) ∈ dfPears.rows
      ∧ ¬("What" = "Who" ∨ "What" = "Did") := by
  refine ⟨rfl, ?_, by decide⟩
  simp [dfPears]

/-- C2 (amended): every row of the returned table has its role pair
among (Who, Did), (Did, What), (Who, Who) and (What, What); so Role1
ranges over Who/Did/What (What occurring in What-What rows) and Role2
over Did/What/Who (Who occurring in Who-Who rows). -/
theorem c2_role_pairs (cfg : Cfg) (syn : String → String → Bool) (n : Nat) (d : Doc)
    (df : DataFrame) (h : extract_svos cfg syn n d = some df) :
    ∀ r ∈ df.rows, ((r.wdw = "Who" ∧ r.wdw2 = "Did") ∨ (r.wdw = "Did" ∧ r.wdw2 = "What")
      ∨ (r.wdw = "Who" ∧ r.wdw2 = "Who") ∨ (r.wdw = "What" ∧ r.wdw2 = "What")) := by
  obtain ⟨ts, hts, rfl⟩ := extract_svos_inv h
  intro r hr
  simp only [buildAllRows, List.mem_append, List.mem_flatten, List.mem_map] at hr
  rcases hr with ⟨l, ⟨svo, _, rfl⟩, hrl⟩ | hr
  · exact (mem_buildSyntacticRows hrl).2
  · rcases (mem_semanticRows hr).2.2 with h1 | h1
    · exact Or.inr (Or.inr (Or.inl h1))
    · exact Or.inr (Or.inr (Or.inr h1))

/-- C2 witness: the amended theorem applied to the concrete `dPears`
table. -/
theorem c2_witness :
    extract_svos cfg0 noSyn 6 dPears = some dfPears
      ∧ ∀ r ∈ dfPears.rows,
        ((r.wdw = "Who" ∧ r.wdw2 = "Did") ∨ (r.wdw = "Did" ∧ r.wdw2 = "What")
          ∨ (r.wdw = "Who" ∧ r.wdw2 = "Who") ∨ (r.wdw = "What" ∧ r.wdw2 = "What")) :=
  ⟨rfl, fun r hr => c2_role_pairs cfg0 noSyn 6 dPears dfPears rfl r hr⟩

/-! ### Claim C3 -/

/-- C3: for a triple with exactly two subject entries, one verb-phrase
element and three object entries, the syntactic pass emits exactly two
Who-Did rows, three Did-What rows, one Who-Who row and three What-What
rows. -/
theorem c3_cross_product (svo : SVO) (h2 : svo.subjects.length = 2)
    (h3 : svo.objects.length = 3) (h1 : svo.verbs.length = 1) :
    (buildSyntacticRows svo).countP (fun r => r.wdw == "Who" && r.wdw2 == "Did") = 2
      ∧ (buildSyntacticRows svo).countP (fun r => r.wdw == "Did" && r.wdw2 == "What") = 3
      ∧ (buildSyntacticRows svo).countP (fun r => r.wdw == "Who" && r.wdw2 == "Who") = 1
      ∧ (buildSyntacticRows svo).countP (fun r => r.wdw == "What" && r.wdw2 == "What") = 3 := by
  obtain ⟨ss, vs, os⟩ := svo
  simp only at h1 h2 h3
  obtain ⟨a, b, hs⟩ := List.length_eq_two.mp h2
  obtain ⟨x, y, z, ho⟩ := List.length_eq_three.mp h3
  obtain ⟨v, hv⟩ := List.length_eq_one.mp h1
  subst hs ho hv
  refine ⟨?_, ?_, ?_, ?_⟩ <;>
    simp [buildSyntacticRows, combinations2, List.countP_cons, List.countP_append]

/-- C3 witness: the cross-product counts on a concrete triple with two
subjects, one verb and three objects. -/
theorem c3_witness :
    svoW.subjects.length = 2 ∧ svoW.objects.length = 3 ∧ svoW.verbs.length = 1
      ∧ ((buildSyntacticRows svoW).countP (fun r => r.wdw == "Who" && r.wdw2 == "Did") = 2
        ∧ (buildSyntacticRows svoW).countP (fun r => r.wdw == "Did" && r.wdw2 == "What") = 3
        ∧ (buildSyntacticRows svoW).countP (fun r => r.wdw == "Who" && r.wdw2 == "Who") = 1
        ∧ (buildSyntacticRows svoW).countP (fun r => r.wdw == "What" && r.wdw2 == "What") = 3) :=
  ⟨rfl, rfl, rfl, c3_cross_product svoW rfl rfl rfl⟩

/-! ### Claim C4 -/

theorem mem_combinations2 {α : Type} {l : List α} {pq : α × α} (h : pq ∈ combinations2 l) :
    pq.1 ∈ l ∧ pq.2 ∈ l := by
  induction l with
  | nil => cases h
  | cons x xs ih =>
    simp only [combinations2, List.mem_append, List.mem_map] at h
    rcases h with ⟨y, hy, rfl⟩ | h
    · exact ⟨List.mem_cons_self _ _, List.mem_cons_of_mem _ hy⟩
    · exact ⟨List.mem_cons_of_mem _ (ih h).1, List.mem_cons_of_mem _ (ih h).2⟩

theorem countP_pairMatch_zero {s1 s2 : String} {l : List String} (h : s1 ∉ l) :
    (combinations2 l).countP (pairMatch s1 s2) = 0 := by
  rw [List.countP_eq_zero]
  intro pq hpq hmatch
  have hm := mem_combinations2 hpq
  simp only [pairMatch, Bool.or_eq_true, Bool.and_eq_true, beq_iff_eq] at hmatch
  rcases hmatch with ⟨h1, _⟩ | ⟨_, h2⟩
  · exact h (h1 ▸ hm.1)
  · exact h (h2 ▸ hm.2)

theorem pairMatch_comm (s1 s2 : String) (pq : String × String) :
    pairMatch s1 s2 pq = pairMatch s2 s1 pq := by
  simp only [pairMatch]
  exact Bool.or_comm _ _

theorem countP_pairMatch_one {s1 s2 : String} (hne : s1 ≠ s2) :
    ∀ {l : List String}, l.Nodup → s1 ∈ l → s2 ∈ l →
      (combinations2 l).countP (pairMatch s1 s2) = 1 := by
  intro l
  induction l with
  | nil => intro _ h1 _; cases h1
  | cons x xs ih =>
    intro hnd h1 h2
    obtain ⟨hx, hnd2⟩ := List.nodup_cons.mp hnd
    simp only [combinations2, List.countP_append, List.countP_map]
    by_cases e1 : x = s1
    · have hs2 : s2 ∈ xs := by
        rcases List.mem_cons.mp h2 with h | h
        · exact absurd (e1.symm.trans h.symm).symm hne.symm
        · exact h
      have hs1x : s1 ∉ xs := e1 ▸ hx
      have key1 : List.countP (pairMatch s1 s2 ∘ fun y => (x, y)) xs
          = List.countP (fun y => y == s2) xs := by
        apply List.countP_congr
        intro y _
        simp only [Function.comp_apply, pairMatch, Bool.or_eq_true, Bool.and_eq_true,
          beq_iff_eq]
        constructor
        · rintro (⟨_, h⟩ | ⟨hc, _⟩)
          · exact h
          · exact absurd (e1.symm.trans hc) hne
        · intro h
          exact Or.inl ⟨e1, h⟩
      rw [key1, ← List.count_eq_countP, List.count_eq_one_of_mem hnd2 hs2,
        countP_pairMatch_zero hs1x]
    · by_cases e2 : x = s2
      · have hs1 : s1 ∈ xs := by
          rcases List.mem_cons.mp h1 with h | h
          · exact absurd h.symm e1
          · exact h
        have hs2x : s2 ∉ xs := e2 ▸ hx
        have key2 : List.countP (pairMatch s1 s2 ∘ fun y => (x, y)) xs
            = List.countP (fun y => y == s1) xs := by
          apply List.countP_congr
          intro y _
          simp only [Function.comp_apply, pairMatch, Bool.or_eq_true, Bool.and_eq_true,
            beq_iff_eq]
          constructor
          · rintro (⟨hc, _⟩ | ⟨_, h⟩)
            · exact absurd (e2.symm.trans hc).symm hne
            · exact h
          · intro h
            exact Or.inr ⟨e2, h⟩
        have key2b : List.countP (pairMatch s1 s2) (combinations2 xs) = 0 := by
          rw [List.countP_congr (fun pq _ => by rw [pairMatch_comm])]
          exact countP_pairMatch_zero hs2x
        rw [key2, ← List.count_eq_countP, List.count_eq_one_of_mem hnd2 hs1, key2b]
      · have hs1 : s1 ∈ xs := by
          rcases List.mem_cons.mp h1 with h | h
          · exact absurd h.symm e1
          · exact h
        have hs2 : s2 ∈ xs := by
          rcases List.mem_cons.mp h2 with h | h
          · exact absurd h.symm e2
          · exact h
        have key3 : List.countP (pairMatch s1 s2 ∘ fun y => (x, y)) xs = 0 := by
          rw [List.countP_eq_zero]
          intro y _ hmatch
          simp only [Function.comp_apply, pairMatch, Bool.or_eq_true, Bool.and_eq_true,
            beq_iff_eq] at hmatch
          rcases hmatch with ⟨hc, _⟩ | ⟨hc, _⟩
          exacts [e1 hc, e2 hc]
        rw [key3, ih hnd2 hs1 hs2]

theorem countP_isPairRow_semantic (syn : String → String → Bool) (S : List String)
    (w s1 s2 : String) (hsym : ∀ a b, syn a b = syn b a) (hnd : S.Nodup)
    (h1 : s1 ∈ S) (h2 : s2 ∈ S) (hne : s1 ≠ s2) (hsyn : syn s1 s2 = true) :
    List.countP (isPairRow w s1 s2)
      (((combinations2 S).filter (fun pq => syn pq.1 pq.2)).map
        (fun pq => (⟨pq.1, w, pq.2, w, "N/A", 1⟩ : Row))) = 1 := by
  rw [List.countP_map, List.countP_filter]
  simp only [Function.comp_def]
  have hcongr : List.countP
      (fun pq : String × String =>
        isPairRow w s1 s2 (⟨pq.1, w, pq.2, w, "N/A", 1⟩ : Row) && syn pq.1 pq.2)
      (combinations2 S)
      = List.countP (pairMatch s1 s2) (combinations2 S) := by
    apply List.countP_congr
    intro pq _
    have hrow : isPairRow w s1 s2 (⟨pq.1, w, pq.2, w, "N/A", 1⟩ : Row)
        = pairMatch s1 s2 pq := by
      simp [isPairRow, pairMatch]
    show (isPairRow w s1 s2 _ && syn pq.1 pq.2) = true ↔ _
    rw [hrow]
    cases hm : pairMatch s1 s2 pq
    · simp
    · have hs : syn pq.1 pq.2 = true := by
        simp only [pairMatch, Bool.or_eq_true, Bool.and_eq_true, beq_iff_eq] at hm
        rcases hm with ⟨ha, hb⟩ | ⟨ha, hb⟩
        · rw [ha, hb]; exact hsyn
        · rw [ha, hb, hsym]; exact hsyn
      simp [hs]
  rw [hcongr]
  exact countP_pairMatch_one hne hnd h1 h2

/-- C4: symmetric synonym oracle; for every pair of distinct
subject-phrase strings of the document that the oracle relates, exactly
one semantic Who-Who row over that unordered pair is emitted (counted
over the whole table, however often each string occurred), and likewise
exactly one What-What row for distinct related object-phrase strings;
all semantic rows carry trace "N/A" and come after every syntactic row
in table order. -/
theorem c4_synonym_augmentation (cfg : Cfg) (syn : String → String → Bool) (n : Nat)
    (d : Doc) (ts : List SVO) (df : DataFrame)
    (hsym : ∀ a b, syn a b = syn b a)
    (hts : svoTriples cfg n d = some ts)
    (hdf : extract_svos cfg syn n d = some df) :
    (∃ A B, df.rows = A ++ B ∧ (∀ r ∈ A, r.semsyn = 0)
        ∧ ∀ r ∈ B, r.semsyn = 1 ∧ r.hypergraph = "N/A")
      ∧ (∀ s1 s2, s1 ≠ s2 → s1 ∈ allSubjectStrings ts → s2 ∈ allSubjectStrings ts →
          syn s1 s2 = true → df.rows.countP (isPairRow "Who" s1 s2) = 1)
      ∧ (∀ o1 o2, o1 ≠ o2 → o1 ∈ allObjectStrings ts → o2 ∈ allObjectStrings ts →
          syn o1 o2 = true → df.rows.countP (isPairRow "What" o1 o2) = 1) := by
  obtain ⟨ts2, hts2, rfl⟩ := extract_svos_inv hdf
  rw [hts] at hts2
  injection hts2 with hts2
  subst hts2
  have hsynzero : ∀ w s1 s2,
      List.countP (isPairRow w s1 s2) ((ts.map buildSyntacticRows).flatten) = 0 := by
    intro w s1 s2
    rw [List.countP_eq_zero]
    intro r hr hp
    simp only [List.mem_flatten, List.mem_map] at hr
    obtain ⟨l, ⟨svo, _, rfl⟩, hrl⟩ := hr
    have h0 := (mem_buildSyntacticRows hrl).1
    simp [isPairRow, h0] at hp
  refine ⟨⟨(ts.map buildSyntacticRows).flatten, semanticRows syn ts, rfl, ?_, ?_⟩, ?_, ?_⟩
  · intro r hr
    simp only [List.mem_flatten, List.mem_map] at hr
    obtain ⟨l, ⟨svo, _, rfl⟩, hrl⟩ := hr
    exact (mem_buildSyntacticRows hrl).1
  · intro r hr
    exact ⟨(mem_semanticRows hr).1, (mem_semanticRows hr).2.1⟩
  · intro s1 s2 hne h1 h2 hsyn
    show List.countP _ ((ts.map buildSyntacticRows).flatten ++ semanticRows syn ts) = 1
    rw [List.countP_append, hsynzero]
    unfold semanticRows
    rw [List.countP_append]
    have hwho := countP_isPairRow_semantic syn (allSubjectStrings ts).dedup "Who" s1 s2
      hsym (List.nodup_dedup _) (List.mem_dedup.mpr h1) (List.mem_dedup.mpr h2) hne hsyn
    have hwhat : List.countP (isPairRow "Who" s1 s2)
        (((combinations2 (allObjectStrings ts).dedup).filter (fun pq => syn pq.1 pq.2)).map
          (fun pq => (⟨pq.1, "What", pq.2, "What", "N/A", 1⟩ : Row))) = 0 := by
      rw [List.countP_eq_zero]
      intro r hr hp
      obtain ⟨pq, _, rfl⟩ := List.mem_map.mp hr
      simp [isPairRow] at hp
    rw [hwho, hwhat]
  · intro o1 o2 hne h1 h2 hsyn
    show List.countP _ ((ts.map buildSyntacticRows).flatten ++ semanticRows syn ts) = 1
    rw [List.countP_append, hsynzero]
    unfold semanticRows
    rw [List.countP_append]
    have hwhat := countP_isPairRow_semantic syn (allObjectStrings ts).dedup "What" o1 o2
      hsym (List.nodup_dedup _) (List.mem_dedup.mpr h1) (List.mem_dedup.mpr h2) hne hsyn
    have hwho : List.countP (isPairRow "What" o1 o2)
        (((combinations2 (allSubjectStrings ts).dedup).filter (fun pq => syn pq.1 pq.2)).map
          (fun pq => (⟨pq.1, "Who", pq.2, "Who", "N/A", 1⟩ : Row))) = 0 := by
      rw [List.countP_eq_zero]
      intro r hr hp
      obtain ⟨pq, _, rfl⟩ := List.mem_map.mp hr
      simp [isPairRow] at hp
    rw [hwhat, hwho]

/-- C4 witness: the synonym-augmentation theorem applied to `dAlice`
with the oracle relating alice and bob; the instantiated count is
exactly one semantic Who-Who row. -/
theorem c4_witness :
    (∀ a b, synAB a b = synAB b a)
      ∧ svoTriples cfg0 6 dAlice = some tsAlice
      ∧ extract_svos cfg0 synAB 6 dAlice = some dfAlice
      ∧ ((∃ A B, dfAlice.rows = A ++ B ∧ (∀ r ∈ A, r.semsyn = 0)
            ∧ ∀ r ∈ B, r.semsyn = 1 ∧ r.hypergraph = "N/A")
        ∧ (∀ s1 s2, s1 ≠ s2 → s1 ∈ allSubjectStrings tsAlice →
            s2 ∈ allSubjectStrings tsAlice → synAB s1 s2 = true →
            dfAlice.rows.countP (isPairRow "Who" s1 s2) = 1)
        ∧ (∀ o1 o2, o1 ≠ o2 → o1 ∈ allObjectStrings tsAlice →
            o2 ∈ allObjectStrings tsAlice → synAB o1 o2 = true →
            dfAlice.rows.countP (isPairRow "What" o1 o2) = 1)) :=
  ⟨fun a b => Bool.or_comm _ _, rfl, rfl,
    c4_synonym_augmentation cfg0 synAB 6 dAlice tsAlice dfAlice
      (fun a b => Bool.or_comm _ _) rfl rfl⟩

/-! ### Claim C5 -/

/-- C5 counterexample: on a bare noun whose surface form and lemma
differ, the Subject Resolver returns the surface form but the Object
Resolver returns the lemma, so the Object Resolver does not invoke the
assembler in non-lemmatizing mode. -/
theorem c5_counterexample :
    (tok dApples 0).text = "apples" ∧ (tok dApples 0).lemma_ = "apple"
      ∧ extract_subjects 2 dApples 0 = some [("apples", [])]
      ∧ extract_objects 2 dApples 0 = some [("apple", [])]
      ∧ ("apple" : String) ≠ "apples" :=
  ⟨rfl, rfl, rfl, rfl, by decide⟩

/-- C5 (amended): subject phrases keep the tokens surface forms (the
Subject Resolver calls the assembler with lemmatize=False), while
object phrases are lemmatized (the Object Resolver calls the assembler
with the default lemmatize=True); shown here on undecorated nominal
tokens, where the two modes are directly observable. -/
theorem c5_subject_surface_object_lemma (n : Nat) (d : Doc) (s : Nat)
    (hpos : isNominal (tok d s) = true)
    (hch : (tok d s).children = [])
    (hcj : (tok d s).conjuncts = [])
    (hdep : (tok d s).dep_ ≠ "pobj") :
    extract_subjects (n+2) d s = some [((tok d s).text, [])]
      ∧ extract_objects (n+2) d s = some [((tok d s).lemma_, [])] := by
  have hsub := compound_parts_bare n d s false hch
  have hobj := compound_parts_bare n d s true hch
  have hdepb : ((tok d s).dep_ == "pobj") = false := by simp [hdep]
  constructor
  · show extract_subjects (n+1+1) d s = _
    simp [extract_subjects, hpos, hcj, hsub, omapM]
  · show extract_objects (n+1+1) d s = _
    simp [extract_objects, hpos, hcj, hobj, hdepb, omapM]

/-- C5 witness: the amended theorem applied to the bare noun document
`dApples`. -/
theorem c5_witness :
    isNominal (tok dApples 0) = true ∧ (tok dApples 0).children = []
      ∧ (tok dApples 0).conjuncts = [] ∧ (tok dApples 0).dep_ ≠ "pobj"
      ∧ (extract_subjects 2 dApples 0 = some [((tok dApples 0).text, [])]
          ∧ extract_objects 2 dApples 0 = some [((tok dApples 0).lemma_, [])]) :=
  ⟨rfl, rfl, rfl, by decide,
    c5_subject_surface_object_lemma 0 dApples 0 rfl rfl rfl (by decide)⟩

/-! ### Claim C6 -/

/-- C6: evaluating the verb-phrase assembler at the failing input.  The
xcomp child at index 2 recursively assembles to the single-element
phrase "not go" (negation then lemma), but the composed phrase of the
parent verb is "want go": only the lemma of the xcomp child appears,
because the slice `child_verb_phrase[1:]` of a one-element list is
always empty, so the negation of the child is dropped. -/
theorem c6_xcomp_remainder_dropped :
    get_verb_phrase cfg0 3 dWant 2 = some ["not go"]
      ∧ get_verb_phrase cfg0 3 dWant 0 = some ["want go"] :=
  ⟨rfl, rfl⟩

/-! ### Claim C7 -/

theorem isEmpty_append {α : Type} (l1 l2 : List α) :
    (l1 ++ l2).isEmpty = (l1.isEmpty && l2.isEmpty) := by
  cases l1 <;> rfl

/-- C7: passive handling.  (a) For a verb outside the acl/relcl branch
that has an nsubjpass child and an agent child, every subject resolved
from a pobj child of the agent is contained in the returned subject
list.  (b) For a VBN/VBD verb with an nsubjpass child, every object
resolved from that passive subject is contained in the returned object
list.  (c) A child labelled nsubjpass is never selected by the
direct-subject rule. -/
theorem c7_passive_inversion (n : Nat) (d : Doc) (v : Nat) :
    ((∀ (res : List Phrase) (a p : Nat),
      ¬((tok d v).dep_ = "acl" ∨ (tok d v).dep_ = "relcl") →
      (∃ c ∈ (tok d v).children, (tok d c).dep_ = "nsubjpass") →
      a ∈ (tok d v).children → (tok d a).dep_ = "agent" →
      p ∈ (tok d a).children → (tok d p).dep_ = "pobj" →
      get_verb_subjects (n+1) d v = some res →
      ∃ sub, extract_subjects n d p = some sub ∧ ∀ x ∈ sub, x ∈ res)
    ∧ (∀ (res : List Phrase) (c : Nat),
      ((tok d v).tag_ = "VBN" ∨ (tok d v).tag_ = "VBD") →
      c ∈ (tok d v).children → (tok d c).dep_ = "nsubjpass" →
      get_verb_objects (n+1) d v = some res →
      ∃ ob, extract_objects n d c = some ob ∧ ∀ x ∈ ob, x ∈ res))
    ∧ (∀ c : Nat, (tok d c).dep_ = "nsubjpass" → c ∉ directSubjChildren d v) := by
  refine ⟨⟨?_, ?_⟩, ?_⟩
  · -- (a) agent pobj resolved as subject
    intro res a p hdep hpass hamem hadep hpmem hpdep h
    simp only [get_verb_subjects, Option.bind_eq_bind] at h
    have hb : ((tok d v).dep_ == "acl" || (tok d v).dep_ == "relcl") = false := by
      have h1 := (not_or.mp hdep).1
      have h2 := (not_or.mp hdep).2
      simp [h1, h2]
    rw [hb] at h
    simp only [Bool.false_eq_true, if_false] at h
    rw [Option.bind_eq_some] at h
    obtain ⟨s1, hs1, h⟩ := h
    obtain ⟨cpass, hcpassmem, hcpassdep⟩ := hpass
    have hany : ((tok d v).children.any fun c => (tok d c).dep_ == "nsubjpass") = true :=
      List.any_eq_true.mpr ⟨cpass, hcpassmem, by simp [hcpassdep]⟩
    rw [if_pos hany] at h
    rw [Option.bind_eq_some] at h
    obtain ⟨ls, hls, h⟩ := h
    simp only [Option.pure_def, Option.some_bind] at h
    have hafil : a ∈ (tok d v).children.filter (fun c => (tok d c).dep_ == "agent") :=
      List.mem_filter.mpr ⟨hamem, by simp [hadep]⟩
    obtain ⟨ra, hra, hramem⟩ := omapM_mem hls hafil
    rw [Option.bind_eq_some] at hra
    obtain ⟨xs, hxs, hrae⟩ := hra
    simp only [Option.pure_def, Option.some.injEq] at hrae
    subst hrae
    have hpfil : p ∈ (tok d a).children.filter (fun g => (tok d g).dep_ == "pobj") :=
      List.mem_filter.mpr ⟨hpmem, by simp [hpdep]⟩
    obtain ⟨sub, hsub, hsubmem⟩ := omapM_mem hxs hpfil
    refine ⟨sub, hsub, ?_⟩
    intro x hx
    have hxf : x ∈ ls.flatten :=
      List.mem_flatten.mpr ⟨xs.flatten, hramem, List.mem_flatten.mpr ⟨sub, hsubmem, hx⟩⟩
    have hne : (ls.flatten).isEmpty = false := by
      rw [List.isEmpty_eq_false]
      exact List.ne_nil_of_mem hxf
    simp only [isEmpty_append, hne, Bool.and_false, Bool.false_and, Bool.false_eq_true,
      if_false, Option.pure_def, Option.some_bind] at h
    rw [Option.bind_eq_some] at h
    obtain ⟨s4, hs4, h⟩ := h
    injection h with h
    subst h
    exact List.mem_append.mpr (Or.inl (List.mem_append.mpr (Or.inr hxf)))
  · -- (b) nsubjpass resolved as object
    intro res c htag hcmem hcdep h
    simp only [get_verb_objects, Option.bind_eq_bind] at h
    rw [Option.bind_eq_some] at h
    obtain ⟨o1, ho1, h⟩ := h
    rw [Option.bind_eq_some] at h
    obtain ⟨o2, ho2, h⟩ := h
    rw [Option.bind_eq_some] at h
    obtain ⟨o3, ho3, h⟩ := h
    have hcond4 : (((tok d v).tag_ == "VBN" || (tok d v).tag_ == "VBD")
        && (tok d v).children.any fun c => (tok d c).dep_ == "nsubjpass") = true := by
      have h1 : ((tok d v).tag_ == "VBN" || (tok d v).tag_ == "VBD") = true := by
        rcases htag with ht | ht <;> simp [ht]
      have h2 : ((tok d v).children.any fun c => (tok d c).dep_ == "nsubjpass") = true :=
        List.any_eq_true.mpr ⟨c, hcmem, by simp [hcdep]⟩
      rw [h1, h2]
      rfl
    rw [if_pos hcond4] at h
    rw [Option.bind_eq_some] at h
    obtain ⟨xs, hxs, h⟩ := h
    simp only [Option.pure_def, Option.some_bind] at h
    have hcfil : c ∈ (tok d v).children.filter (fun g => (tok d g).dep_ == "nsubjpass") :=
      List.mem_filter.mpr ⟨hcmem, by simp [hcdep]⟩
    obtain ⟨ob, hob, hobmem⟩ := omapM_mem hxs hcfil
    refine ⟨ob, hob, ?_⟩
    intro x hx
    rw [Option.bind_eq_some] at h
    obtain ⟨o5, ho5, h⟩ := h
    rw [Option.bind_eq_some] at h
    obtain ⟨o6, ho6, h⟩ := h
    rw [Option.bind_eq_some] at h
    obtain ⟨o7, ho7, h⟩ := h
    have hxf : x ∈ xs.flatten := List.mem_flatten.mpr ⟨ob, hobmem, hx⟩
    have hne : (xs.flatten).isEmpty = false := by
      rw [List.isEmpty_eq_false]
      exact List.ne_nil_of_mem hxf
    simp only [isEmpty_append, hne, Bool.and_false, Bool.false_and, Bool.false_eq_true,
      if_false, Option.pure_def] at h
    injection h with h
    subst h
    simp only [List.mem_append]
    tauto
  · -- (c) nsubjpass is not a direct subject
    intro c hc hmem
    have h2 := (List.mem_filter.mp hmem).2
    rw [hc] at h2
    exact absurd h2 (by decide)

/-- C7 witness: the passive-inversion theorem applied to the parse of
"The cake was eaten by alice". -/
theorem c7_witness :
    (¬((tok dPassive 2).dep_ = "acl" ∨ (tok dPassive 2).dep_ = "relcl"))
      ∧ (∃ c ∈ (tok dPassive 2).children, (tok dPassive c).dep_ = "nsubjpass")
      ∧ 3 ∈ (tok dPassive 2).children ∧ (tok dPassive 3).dep_ = "agent"
      ∧ 4 ∈ (tok dPassive 3).children ∧ (tok dPassive 4).dep_ = "pobj"
      ∧ get_verb_subjects 5 dPassive 2 = some [("alice", [])]
      ∧ ((tok dPassive 2).tag_ = "VBN" ∨ (tok dPassive 2).tag_ = "VBD")
      ∧ 0 ∈ (tok dPassive 2).children ∧ (tok dPassive 0).dep_ = "nsubjpass"
      ∧ get_verb_objects 5 dPassive 2 = some [("cake", [])]
      ∧ (∃ sub, extract_subjects 4 dPassive 4 = some sub
          ∧ ∀ x ∈ sub, x ∈ ([("alice", [])] : List Phrase))
      ∧ (∃ ob, extract_objects 4 dPassive 0 = some ob
          ∧ ∀ x ∈ ob, x ∈ ([("cake", [])] : List Phrase))
      ∧ (0 : Nat) ∉ directSubjChildren dPassive 2 := by
  refine ⟨by decide, ⟨0, by decide, rfl⟩, by decide, rfl, by decide, rfl, rfl,
    Or.inl rfl, by decide, rfl, rfl, ?_, ?_, ?_⟩
  · exact (c7_passive_inversion 4 dPassive 2).1.1 [("alice", [])] 3 4 (by decide)
      ⟨0, by decide, rfl⟩ (by decide) rfl (by decide) rfl rfl
  · exact (c7_passive_inversion 4 dPassive 2).1.2 [("cake", [])] 0 (Or.inl rfl)
      (by decide) rfl rfl
  · exact (c7_passive_inversion 4 dPassive 2).2 0 rfl

/-! ### Claim C8 -/

/-- C8: for an action token whose own dependency label is acl or relcl
the subject resolver short-circuits: with explicit nsubj children it
returns exactly their subject-token resolution, otherwise exactly the
head noun assembled in surface (non-lemmatized) form as the sole
subject; no other subject rule contributes in either case. -/
theorem c8_relcl_short_circuit (n : Nat) (d : Doc) (v : Nat)
    (hdep : (tok d v).dep_ = "acl" ∨ (tok d v).dep_ = "relcl") :
    (directSubjChildren d v = [] →
        get_verb_subjects (n+1) d v
          = (get_compound_parts n d (tok d v).head false).map (fun mp => [mp]))
      ∧ (directSubjChildren d v ≠ [] →
        get_verb_subjects (n+1) d v
          = (omapM (extract_subjects n d) (directSubjChildren d v)).map List.flatten) := by
  have hcond : ((tok d v).dep_ == "acl" || (tok d v).dep_ == "relcl") = true := by
    rcases hdep with h | h <;> simp [h]
  constructor
  · intro hn
    have hn2 : (tok d v).children.filter (fun c => (tok d c).dep_ == "nsubj") = [] := hn
    simp [get_verb_subjects, hcond, hn2]
  · intro hn
    have hne : ((tok d v).children.filter (fun c => (tok d c).dep_ == "nsubj")).isEmpty
        = false := by
      rw [List.isEmpty_eq_false]
      exact hn
    simp [get_verb_subjects, hcond, hne, directSubjChildren]

/-- C8 witness: on "man running" the relative-clause verb has no nsubj
child, so its sole subject is the surface form of the modified noun. -/
theorem c8_witness :
    ((tok dRel 1).dep_ = "acl" ∨ (tok dRel 1).dep_ = "relcl")
      ∧ directSubjChildren dRel 1 = []
      ∧ get_verb_subjects 3 dRel 1
          = (get_compound_parts 2 dRel (tok dRel 1).head false).map (fun mp => [mp])
      ∧ get_verb_subjects 3 dRel 1 = some [("man", [])] :=
  ⟨Or.inr rfl, rfl, (c8_relcl_short_circuit 2 dRel 1 (Or.inr rfl)).1 rfl, rfl⟩

/-! ### Claim C9 -/

/-- C9: a document in which no token qualifies yields an empty relation
table that still carries the six DataFrame columns. -/
theorem c9_empty_table (cfg : Cfg) (syn : String → String → Bool) (n : Nat) (d : Doc)
    (h : ∀ k ∈ List.range d.tokens.length, qualifies d (tok d k) = false) :
    extract_svos cfg syn n d = some ⟨[], svoColumns⟩ := by
  have hq : qualIdx d = [] := by
    unfold qualIdx
    rw [List.filter_eq_nil_iff]
    intro k hk
    simp [h k hk]
  unfold extract_svos svoTriples
  rw [hq]
  rfl

/-- C9 witness: the empty-table theorem applied to a document holding a
single non-verb token. -/
theorem c9_witness :
    (∀ k ∈ List.range dApples.tokens.length, qualifies dApples (tok dApples k) = false)
      ∧ extract_svos cfg0 noSyn 6 dApples = some ⟨[], svoColumns⟩ :=
  ⟨by decide, c9_empty_table cfg0 noSyn 6 dApples (by decide)⟩

/-! ### Claim C10 -/

theorem verb_subjects_cyc_none : ∀ n, get_verb_subjects n dCyc 0 = none := by
  intro n
  induction n with
  | zero => rfl
  | succ n ih =>
    simp [get_verb_subjects, tok, dCyc, directSubjChildren, omapM, anc_subj_loop]
    exact ih

theorem filter_length_lt {α : Type} (l : List α) (p q : α → Bool)
    (hpq : ∀ x, p x = true → q x = true) (a : α) (ha : a ∈ l)
    (hpa : p a = false) (hqa : q a = true) :
    (l.filter p).length < (l.filter q).length := by
  induction l with
  | nil => cases ha
  | cons x xs ih =>
    rcases List.mem_cons.mp ha with rfl | ha2
    · rw [List.filter_cons, List.filter_cons, if_neg (by simp [hpa]), if_pos hqa]
      simp only [List.length_cons]
      have hle : (xs.filter p).length ≤ (xs.filter q).length := by
        rw [← List.countP_eq_length_filter, ← List.countP_eq_length_filter]
        exact List.countP_mono_left (fun x _ => hpq x)
      omega
    · by_cases hx : p x = true
      · have hqx := hpq x hx
        rw [List.filter_cons, List.filter_cons, if_pos hx, if_pos hqx]
        simp only [List.length_cons]
        exact Nat.succ_lt_succ (ih ha2)
      · rw [List.filter_cons, List.filter_cons, if_neg hx]
        by_cases hqx : q x = true
        · rw [if_pos hqx]
          simp only [List.length_cons]
          exact Nat.lt_succ_of_lt (ih ha2)
        · rw [if_neg hqx]
          exact ih ha2

theorem mem_conjuncts_tok {d : Doc} {i c : Nat} (h : c ∈ (tok d i).conjuncts) :
    c ∈ conjUniverse d := by
  unfold tok at h
  by_cases hi : i < d.tokens.length
  · rw [List.getD_eq_getElem _ _ hi] at h
    unfold conjUniverse
    rw [List.mem_flatten]
    exact ⟨(d.tokens[i]).conjuncts, List.mem_map.mpr ⟨d.tokens[i], List.getElem_mem hi, rfl⟩, h⟩
  · rw [List.getD_eq_default _ _ (Nat.le_of_not_lt hi)] at h
    cases h

theorem conj_fold_mono {f : Nat → List Nat → Option (List Nat × List Nat)}
    (hf : ∀ c vis r, f c vis = some r → vis ⊆ r.2) :
    ∀ (cs : List Nat) (st st2 : List Nat × List Nat),
      conj_fold f cs st = some st2 → st.2 ⊆ st2.2 := by
  intro cs
  induction cs with
  | nil =>
    intro st st2 h
    injection h with h
    subst h
    exact fun x hx => hx
  | cons c cs ih =>
    intro st st2 h
    simp only [conj_fold] at h
    by_cases hc : c ∈ st.2
    · rw [if_pos hc] at h
      exact ih st st2 h
    · rw [if_neg hc] at h
      cases hr : f c st.2 with
      | none => rw [hr] at h; cases h
      | some r =>
        rw [hr] at h
        have h1 := hf c st.2 r hr
        have h2 := ih _ st2 h
        exact fun x hx => h2 (h1 hx)

theorem get_conjuncts_mono :
    ∀ (n : Nat) (d : Doc) (t : Nat) (vis : List Nat) (r : List Nat × List Nat),
      get_conjuncts n d t vis = some r → t :: vis ⊆ r.2 := by
  intro n
  induction n with
  | zero => intro d t vis r h; cases h
  | succ n ih =>
    intro d t vis r h
    simp only [get_conjuncts] at h
    have hf : ∀ c vis2 r2,
        (fun c vis2 => get_conjuncts n d c vis2) c vis2 = some r2 → vis2 ⊆ r2.2 := by
      intro c vis2 r2 h2 x hx
      exact ih d c vis2 r2 h2 (List.mem_cons_of_mem _ hx)
    exact conj_fold_mono hf _ _ _ h

theorem get_conjuncts_total (d : Doc) :
    ∀ (n : Nat) (t : Nat) (vis : List Nat),
      (unvisited d (t :: vis)).length < n → (get_conjuncts n d t vis).isSome = true := by
  intro n
  induction n with
  | zero => intro t vis h; exact absurd h (Nat.not_lt_zero _)
  | succ n ih =>
    intro t vis hm
    simp only [get_conjuncts]
    have main : ∀ (cs : List Nat), (∀ c ∈ cs, c ∈ conjUniverse d) →
        ∀ (st : List Nat × List Nat), t :: vis ⊆ st.2 →
          (conj_fold (fun c vis2 => get_conjuncts n d c vis2) cs st).isSome = true := by
      intro cs
      induction cs with
      | nil => intro _ st _; rfl
      | cons c cs ihcs =>
        intro hcs st hst
        simp only [conj_fold]
        by_cases hc : c ∈ st.2
        · rw [if_pos hc]
          exact ihcs (fun x hx => hcs x (List.mem_cons_of_mem _ hx)) st hst
        · rw [if_neg hc]
          have hcu : c ∈ conjUniverse d := hcs c (List.mem_cons_self _ _)
          have hlt2 : (unvisited d (c :: st.2)).length < (unvisited d (t :: vis)).length := by
            apply filter_length_lt (conjUniverse d) _ _ ?mono c hcu ?pa ?qa
            case mono =>
              intro x hx
              simp only [decide_eq_true_eq] at hx ⊢
              intro hmem
              rcases List.mem_cons.mp hmem with rfl | hmem2
              · exact hx (List.mem_cons_of_mem _ (hst (List.mem_cons_self _ _)))
              · exact hx (List.mem_cons_of_mem _ (hst (List.mem_cons.mpr (Or.inr hmem2))))
            case pa =>
              simp
            case qa =>
              simp only [decide_eq_true_eq]
              intro hmem
              exact hc (hst hmem)
          have hlt : (unvisited d (c :: st.2)).length < n := by omega
          obtain ⟨r, hr⟩ := Option.isSome_iff_exists.mp (ih c st.2 hlt)
          rw [hr]
          apply ihcs (fun x hx => hcs x (List.mem_cons_of_mem _ hx))
          intro x hx
          exact get_conjuncts_mono n d c st.2 r hr (List.mem_cons_of_mem _ (hst hx))
    apply main
    · intro c hc
      exact mem_conjuncts_tok hc
    · exact fun x hx => hx

/-- C10 counterexample: the conjunct subject-inheritance recursion in
`get_verb_subjects` carries no visited-set guard, and on a finite token
structure whose conj/head link closes a cycle the fuel-indexed
embedding returns nothing at every fuel value — the Python original
recurses forever, so the claimed termination on every finite structure
fails. -/
theorem c10_counterexample : getVerbSubjectsDiverges dCyc 0 :=
  verb_subjects_cyc_none

/-- C10 (amended): only `get_conjuncts` carries the explicit
visited-set guard; it terminates on every finite token structure,
including conjunct cycles (fuel exceeding the unvisited part of the
conjunct universe suffices), while the conjunct subject-inheritance
recursion of `get_verb_subjects` is unguarded and fails to terminate on
a cyclic head structure. -/
theorem c10_guarded_vs_unguarded :
    (∀ (d : Doc) (t : Nat) (vis : List Nat) (n : Nat),
        (unvisited d (t :: vis)).length < n → (get_conjuncts n d t vis).isSome = true)
      ∧ ∀ n, get_verb_subjects n dCyc 0 = none :=
  ⟨fun d t vis n h => get_conjuncts_total d n t vis h, verb_subjects_cyc_none⟩

/-- C10 witness: the guarded traversal returns on a two-token conjunct
cycle once the fuel exceeds the conjunct universe. -/
theorem c10_witness :
    (unvisited dCyc2 (0 :: [])).length < 3
      ∧ (get_conjuncts 3 dCyc2 0 []).isSome = true :=
  ⟨by decide, c10_guarded_vs_unguarded.1 dCyc2 0 [] 3 (by decide)⟩

end WDW
